import Mathlib

/-!
Verification of the protocol layer of `python-lacrossegateway`
(`src/pylacrossegateway/lacrossegateway.py`).

The development is a shallow embedding of the source:

* strings are `List Char`; Python `int` values are `Nat` (the protocol only
  carries unsigned decimal integers);
* the telemetry regex `re_reading = 'OK (\d+) ... (\d+)'` (21 groups,
  single-space separated) is embedded as the deterministic matcher
  `matchNums` / `re_reading_match`.  For this pattern greedy matching of
  `\d+` never needs to backtrack: every group is followed by a literal
  space (or by nothing, for the last group), and a digit can never match a
  space, so the maximal-munch parse is the unique leftmost-greedy match,
  exactly what Python's `re.match` produces.  `\d` is modelled as the ASCII
  digits (the inputs of interest are ASCII);
* the info regex of `_parse_info` needs real backtracking (it contains
  three `.*` groups); it is embedded with a small leftmost-greedy
  backtracking engine `rmatch` that tries, for each greedy item, the
  longest consumption first — the same search order Python's `re` uses;
* fallible Python code is `Option`-valued: a raised `IndexError` inside
  `_parse_info` is `none`, absent object attributes are `none`, a Python
  `dict`/attribute record becomes a structure of `Option` fields.
-/

namespace LaCrosse

/-- Python `str.strip('\r\n')`: remove leading and trailing `'\r'`/`'\n'`. -/
def pyStrip (s : List Char) : List Char :=
  ((s.dropWhile (fun c => c = '\r' || c = '\n')).reverse.dropWhile
    (fun c => c = '\r' || c = '\n')).reverse

/-- Python `int` applied to a decimal digit string (the regexes below only
ever hand it nonempty all-digit strings). -/
def digitsToNat (g : List Char) : Nat :=
  g.foldl (fun a c => a * 10 + (c.toNat - 48)) 0

/-- One hexadecimal/decimal digit, upper case, as produced by Python's
`'{:02X}'.format` / `str` for the digit values `0..15`. -/
def hexDigitChar (n : Nat) : Char :=
  if n < 10 then Char.ofNat (48 + n) else Char.ofNat (55 + n)

/-- Digit expansion of `n` in base 16, most significant first; the fuel
argument (`n` itself at the call site) makes the recursion structural so
that the kernel can evaluate it. -/
def hexStrAux : Nat → Nat → List Char → List Char
  | 0, n, acc => hexDigitChar n :: acc
  | fuel + 1, n, acc =>
      if n < 16 then hexDigitChar n :: acc
      else hexStrAux fuel (n / 16) (hexDigitChar (n % 16) :: acc)

/-- Python `'{:02X}'.format n`: upper-case hexadecimal, zero-padded to a
minimum width of 2. -/
def format02X (n : Nat) : List Char :=
  let ds := hexStrAux n n []
  List.replicate (2 - ds.length) '0' ++ ds

/-- Digit expansion of `n` in base 10 (Python `str` of a nonnegative
`int`), with the same structural-fuel device as `hexStrAux`. -/
def decStrAux : Nat → Nat → List Char → List Char
  | 0, n, acc => hexDigitChar n :: acc
  | fuel + 1, n, acc =>
      if n < 10 then hexDigitChar n :: acc
      else decStrAux fuel (n / 10) (hexDigitChar (n % 10) :: acc)

/-- Python `str (n : Nat)`. -/
def natDec (n : Nat) : List Char := decStrAux n n []

/-- The matcher for the repeated part of `LaCrosseSensor.re_reading`:
`n` copies of a literal space followed by a captured nonempty digit run
(`' (\d+)'`), returning the list of captured groups.  Maximal munch of the
digit run is exactly Python's greedy `\d+` here (see the file comment). -/
def matchNums : Nat → List Char → Option (List (List Char))
  | 0, _ => some []
  | _ + 1, [] => none
  | n + 1, c :: s =>
      if c = ' ' then
        let ds := s.takeWhile Char.isDigit
        if ds = [] then none
        else (matchNums n (s.dropWhile Char.isDigit)).map (fun gs => ds :: gs)
      else none

/-- `LaCrosseSensor.re_reading.match line`: the literal `OK` at the start
of the line followed by 21 single-space separated digit groups; anything
may follow the last group.  Returns the 21 captured groups. -/
def re_reading_match (line : List Char) : Option (List (List Char)) :=
  match line with
  | a :: b :: rest =>
      if a = 'O' then if b = 'K' then matchNums 21 rest else none
      else none
  | _ => none

/-- The attributes `LaCrosseSensor._parse` sets on a successful match. -/
structure Reading where
  sensortype : Nat
  sensorid : List Char
  ontime : Nat
  totaltime : Nat
  energy : Nat
  power : Nat
  maxpower : Nat
  resets : Nat
deriving DecidableEq

/-- `LaCrosseSensor._parse`: on a regex match, convert the 21 groups with
`int` and assemble the fields exactly as source lines 234-242 do (`data`
is 0-indexed after the leading `OK`; `data[20]` is unused). -/
def LaCrosseSensor_parse (line : List Char) : Option Reading :=
  match re_reading_match line with
  | none => none
  | some groups =>
      let data := groups.map digitsToNat
      some { sensortype := data.getD 0 0,
             sensorid := format02X (data.getD 1 0) ++ format02X (data.getD 2 0),
             ontime := data.getD 3 0 * 16777216 + data.getD 4 0 * 65536
                        + data.getD 5 0 * 256 + data.getD 6 0,
             totaltime := data.getD 7 0 * 16777216 + data.getD 8 0 * 65536
                        + data.getD 9 0 * 256 + data.getD 10 0,
             energy := data.getD 11 0 * 16777216 + data.getD 12 0 * 65536
                        + data.getD 13 0 * 256 + data.getD 14 0,
             power := data.getD 15 0 * 256 + data.getD 16 0,
             maxpower := data.getD 17 0 * 256 + data.getD 18 0,
             resets := data.getD 19 0 }

/-- Python `\w` (ASCII range): letters, digits, underscore. -/
def isWordChar (c : Char) : Bool := c.isAlphanum || c = '_'

/-- One item of a regex pattern, restricted to the constructs
`_parse_info`'s pattern uses: a literal character, `.` (any character but
newline), a greedy `.*`, and a greedy one-or-more repetition of a
character class (`\w+` / `\d+`). -/
inductive RItem where
  | lit : Char → RItem
  | dot : RItem
  | star : RItem
  | plus : (Char → Bool) → RItem

/-- `n, n-1, ..., 0`: the candidate consumption lengths of a greedy `.*`,
longest first (Python's backtracking order). -/
def countdown : Nat → List Nat
  | 0 => [0]
  | n + 1 => (n + 1) :: countdown n

/-- `n, n-1, ..., 1`: candidate consumption lengths of a greedy `+`. -/
def countdown1 : Nat → List Nat
  | 0 => []
  | n + 1 => (n + 1) :: countdown1 n

/-- First success of `f` along a list of candidates. -/
def firstSome (f : Nat → Option (List (List Char))) :
    List Nat → Option (List (List Char))
  | [] => none
  | k :: ks =>
      match f k with
      | some r => some r
      | none => firstSome f ks

/-- Leftmost-greedy backtracking matcher, anchored at the start of `s`
(Python `re.match`; the pattern does not have to exhaust `s`).  Returns,
for each pattern item, the characters it consumed; quantified items try
the longest consumption first, exactly Python's search order. -/
def rmatch : List RItem → List Char → Option (List (List Char))
  | [], _ => some []
  | RItem.lit c :: ps, s =>
      match s with
      | [] => none
      | a :: s' => if a = c then (rmatch ps s').map (fun gs => [c] :: gs) else none
  | RItem.dot :: ps, s =>
      match s with
      | [] => none
      | a :: s' =>
          if a = '\n' then none else (rmatch ps s').map (fun gs => [a] :: gs)
  | RItem.star :: ps, s =>
      firstSome (fun k => (rmatch ps (s.drop k)).map (fun gs => s.take k :: gs))
        (countdown (s.takeWhile (fun c => !(c = '\n'))).length)
  | RItem.plus cls :: ps, s =>
      let m := (s.takeWhile cls).length
      if m = 0 then none
      else
        firstSome (fun k => (rmatch ps (s.drop k)).map (fun gs => s.take k :: gs))
          (countdown1 m)

/-- The pattern of `_parse_info`'s `re_info`
`\[(?P<name>\w+\.\w+).(?P<ver>.*) \(1=(?P<rfm1name>\w+) (\w+):(?P<rfm1freq>\d+) (?P<rfm1mode>.*)\) {IP=(?P<address>.*)}\]`
item by item.  Note the fifth item: the source pattern has an unescaped
`.` between the `name` group and the `ver` group.  Group captures live at
the indices: name = items 1,2,3; ver = 5; rfm1name = 10; rfm1freq = 14;
rfm1mode = 16; address = 23. -/
def infoPattern : List RItem :=
  [RItem.lit '[',
   RItem.plus isWordChar, RItem.lit '.', RItem.plus isWordChar,
   RItem.dot,
   RItem.star,
   RItem.lit ' ', RItem.lit '(', RItem.lit '1', RItem.lit '=',
   RItem.plus isWordChar,
   RItem.lit ' ',
   RItem.plus isWordChar,
   RItem.lit ':',
   RItem.plus Char.isDigit,
   RItem.lit ' ',
   RItem.star,
   RItem.lit ')', RItem.lit ' ', RItem.lit '\x7b',
   RItem.lit 'I', RItem.lit 'P', RItem.lit '=',
   RItem.star,
   RItem.lit '\x7d', RItem.lit ']']

/-- Python `str.split(sep)` for a single-character separator: splits at
every occurrence, keeps empty segments, never returns an empty list. -/
def splitOnChar (sep : Char) : List Char → List (List Char)
  | [] => [[]]
  | c :: cs =>
      if c = sep then [] :: splitOnChar sep cs
      else
        match splitOnChar sep cs with
        | [] => [[c]]
        | t :: ts => (c :: t) :: ts

/-- The `info` dict built by `_parse_info`; every value starts out as
Python `None` (here `none`). -/
structure Info where
  name : Option (List Char)
  version : Option (List Char)
  address : Option (List Char)
  rfm1name : Option (List Char)
  rfm1frequency : Option (List Char)
  rfm1datarate : Option (List Char)
  rfm1toggleinterval : Option (List Char)
  rfm1togglemask : Option (List Char)
deriving DecidableEq

/-- The freshly initialised dict of `_parse_info` (lines 91-100): every
field `None`. -/
def emptyInfo : Info :=
  { name := none, version := none, address := none, rfm1name := none,
    rfm1frequency := none, rfm1datarate := none,
    rfm1toggleinterval := none, rfm1togglemask := none }

/-- `LaCrosseGateway._parse_info`.  On a regex mismatch the untouched
all-`None` dict is returned.  On a match the five structural fields are
filled from the groups and the `rfm1mode` group is split at `':'`;
discriminator `'r'` fills the data rate, `'t'` splits the value at `'~'`
into interval and mask.  The result is `none` exactly when the Python
code raises `IndexError` (`values[1]` or `toggle[1]` missing). -/
def parse_info (line : List Char) : Option Info :=
  match rmatch infoPattern line with
  | none => some emptyInfo
  | some gs =>
      let g := fun i => gs.getD i []
      let base : Info :=
        { name := some (g 1 ++ g 2 ++ g 3),
          version := some (g 5),
          address := some (g 23),
          rfm1name := some (g 10),
          rfm1frequency := some (g 14),
          rfm1datarate := none,
          rfm1toggleinterval := none,
          rfm1togglemask := none }
      let values := splitOnChar ':' (g 16)
      if values.getD 0 [] = ['r'] then
        match values.get? 1 with
        | none => none
        | some v => some { base with rfm1datarate := some v }
      else if values.getD 0 [] = ['t'] then
        match values.get? 1 with
        | none => none
        | some v =>
            let toggle := splitOnChar '~' v
            match toggle.get? 1 with
            | none => none
            | some mk =>
                some { base with rfm1toggleinterval := some (toggle.getD 0 []),
                                 rfm1togglemask := some mk }
      else some base

/-- Association-list lookup keyed by sensor-id strings (a Python `dict`
read, `d[k]` / `k in d`). -/
def alookup {β : Type} (k : List Char) : List (List Char × β) → Option β
  | [] => none
  | (k', v) :: t => if k' = k then some v else alookup k t

/-- Association-list update (a Python `dict` write `d[k] = v`): replace
the existing entry for `k`, or append a new one. -/
def insertAssoc {β : Type} (k : List Char) (v : β) :
    List (List Char × β) → List (List Char × β)
  | [] => [(k, v)]
  | (k', v') :: t =>
      if k' = k then (k, v) :: t else (k', v') :: insertAssoc k v t

/-- The mutable state of a `LaCrosseGateway` that the ingestion loop and
the registration calls touch: the `sensors` dict, the `_registry` dict
(sensor id → list of registered callbacks, registration order), and the
catch-all `_callback` slot.  Callbacks are opaque values of a type `κ`
(in the source they are `(callback, user_data)` pairs); "invoking" a
callback is modelled by emitting the pair `(callback, reading)` into an
event trace. -/
structure GWState (κ : Type) where
  sensors : List (List Char × Reading)
  registry : List (List Char × List κ)
  callback : Option κ

/-- One iteration of `LaCrosseGateway._refresh` on a received line:
strip `'\r\n'`, test `re_reading`, and on a reading store it under its
sensor id, then invoke the catch-all callback (if installed), then every
callback registered for that id, in order.  (The source tests
`re_reading.match` and then re-parses inside `LaCrosseSensor.__init__`;
both run the same regex on the same line, so a single parse is
faithful.)  Returns the new state and the callback invocations in
order. -/
def refreshStep {κ : Type} (s : GWState κ) (raw : List Char) :
    GWState κ × List (κ × Reading) :=
  let line := pyStrip raw
  match LaCrosseSensor_parse line with
  | none => (s, [])
  | some r =>
      let s' := { s with sensors := insertAssoc r.sensorid r s.sensors }
      let catchEvents := (s.callback.map (fun c => (c, r))).toList
      let regEvents :=
        ((alookup r.sensorid s.registry).getD []).map (fun cb => (cb, r))
      (s', catchEvents ++ regEvents)

/-- The ingestion loop over a whole stream of received lines (until the
stop event): fold `refreshStep`, concatenating the invocation traces. -/
def refreshRun {κ : Type} : GWState κ → List (List Char) → GWState κ × List (κ × Reading)
  | s, [] => (s, [])
  | s, raw :: rest =>
      let step := refreshStep s raw
      let next := refreshRun step.1 rest
      (next.1, step.2 ++ next.2)

/-- `LaCrosseGateway.register_callback`: create the per-id list if absent,
then append the callback. -/
def register_callback {κ : Type} (s : GWState κ) (id : List Char) (cb : κ) :
    GWState κ :=
  match alookup id s.registry with
  | none => { s with registry := insertAssoc id [cb] s.registry }
  | some cbs => { s with registry := insertAssoc id (cbs ++ [cb]) s.registry }

/-- `LaCrosseGateway.register_all`: replace the catch-all slot. -/
def register_all {κ : Type} (s : GWState κ) (cb : κ) : GWState κ :=
  { s with callback := some cb }

/-- `re.compile('\[.*\]').match line`: the line starts with `'['` and a
`']'` occurs later with no newline before it (`.*` cannot cross a
newline). -/
def bracket_match (l : List Char) : Bool :=
  match l with
  | '[' :: rest => (rest.takeWhile (fun c => !(c = '\n'))).contains ']'
  | _ => false

/-- The synchronous read loop of `LaCrosseGateway.get_info`, with the
socket modelled as a stream of lines.  The second argument counts the
reads left in the current 10-read batch: at `0` the `'v'` command is
(re-)sent — incrementing the returned send counter — and a fresh batch
starts.  The loop returns `parse_info` of the first line matching
`\[.*\]`; an exhausted stream models a socket that never delivers the
info line (the Python loop would block forever), returning `none`. -/
def getInfoGo : List (List Char) → Nat → Nat → Nat × Option Info
  | [], _, sent => (sent, none)
  | l :: rest, 0, sent =>
      let line := pyStrip l
      if bracket_match line then (sent + 1, parse_info line)
      else getInfoGo rest 9 (sent + 1)
  | l :: rest, k + 1, sent =>
      let line := pyStrip l
      if bracket_match line then (sent, parse_info line)
      else getInfoGo rest k sent

/-- `LaCrosseGateway.get_info` on a stream of lines: returns the number
of `'v'` commands sent and the parsed result. -/
def get_info (stream : List (List Char)) : Nat × Option Info :=
  getInfoGo stream 0 0

/-- `LaCrosseGateway._write_cmd`: the bytes put on the socket are the
command followed by CRLF. -/
def write_cmd (cmd : List Char) : List Char := cmd ++ ['\r', '\n']

/-- A Python dict literal `{1: c₁, 2: c₂}` indexed by the `rfm` argument;
`none` models the `KeyError` for any other channel. -/
def cmd_lookup (rfm : Nat) : List (Nat × Char) → Option Char
  | [] => none
  | (k, c) :: t => if k = rfm then some c else cmd_lookup rfm t

/-- `LaCrosseGateway.set_frequency`: `'{}{}'.format(frequency, cmds[rfm])`
written to the socket, `cmds = {1: 'f', 2: 'F'}`. -/
def set_frequency (frequency : Nat) (rfm : Nat) : Option (List Char) :=
  (cmd_lookup rfm [(1, 'f'), (2, 'F')]).map
    (fun c => write_cmd (natDec frequency ++ [c]))

/-- `LaCrosseGateway.set_datarate`, `cmds = {1: 'r', 2: 'R'}`. -/
def set_datarate (rate : Nat) (rfm : Nat) : Option (List Char) :=
  (cmd_lookup rfm [(1, 'r'), (2, 'R')]).map
    (fun c => write_cmd (natDec rate ++ [c]))

/-- `LaCrosseGateway.set_toggle_interval`, `cmds = {1: 't', 2: 'T'}`. -/
def set_toggle_interval (interval : Nat) (rfm : Nat) : Option (List Char) :=
  (cmd_lookup rfm [(1, 't'), (2, 'T')]).map
    (fun c => write_cmd (natDec interval ++ [c]))

/-- `LaCrosseGateway.set_toggle_mask`, `cmds = {1: 'm', 2: 'M'}`. -/
def set_toggle_mask (mode_mask : Nat) (rfm : Nat) : Option (List Char) :=
  (cmd_lookup rfm [(1, 'm'), (2, 'M')]).map
    (fun c => write_cmd (natDec mode_mask ++ [c]))

/-- The worker-related state of a gateway: the `_thread` handle, the
`_stopevent` flag (`none` = no `threading.Event` object yet), and — as
environment bookkeeping for `threading` — the ids of the background
tasks currently running. -/
structure WorkerSt where
  thread : Option Nat
  stopevent : Option Bool
  running : List Nat
deriving DecidableEq

/-- The freshly constructed gateway: class attributes `_thread = None`,
`_stopevent = None`, and no background task running. -/
def workerInit : WorkerSt := { thread := none, stopevent := none, running := [] }

/-- `LaCrosseGateway._start_worker` (the body of `start_scan`): a no-op
when `_thread` is already set; otherwise create the stop event and start
one new thread (`fresh` is the id the environment gives it). -/
def start_worker (s : WorkerSt) (fresh : Nat) : WorkerSt :=
  if s.thread.isSome then s
  else { thread := some fresh, stopevent := some false,
         running := s.running ++ [fresh] }

/-- `LaCrosseGateway._stop_worker`: set the stop event if one exists and
join the thread if one exists — after the join no background task is
running.  `_thread` is left as is (the source never clears it). -/
def stop_worker (s : WorkerSt) : WorkerSt :=
  { thread := s.thread,
    stopevent := s.stopevent.map (fun _ => true),
    running := if s.thread.isSome then [] else s.running }

/-- The worker states reachable through the public operations. -/
inductive WReach : WorkerSt → Prop
  | init : WReach workerInit
  | start (s : WorkerSt) (fresh : Nat) : WReach s → WReach (start_worker s fresh)
  | stop (s : WorkerSt) : WReach s → WReach (stop_worker s)

/-- `LaCrosseSensor.__init__`: the parse runs only when a line is given
and truthy (nonempty); the object's reading attributes are set exactly
when the regex matched, which the `Option Reading` models (all eight
attributes are assigned under the same `if`). -/
def sensor_init_line (line? : Option (List Char)) : Option Reading :=
  match line? with
  | none => none
  | some l => if l = [] then none else LaCrosseSensor_parse l

/-- Python attribute access on the sensor object: reading a field of a
sensor whose attributes were never set raises `AttributeError`
(`Except.error ()`); otherwise it returns the value. -/
def sensor_getattr {α : Type} (s : Option Reading) (f : Reading → α) :
    Except Unit α :=
  match s with
  | none => Except.error ()
  | some r => Except.ok (f r)

/-! ### Characterisation of the telemetry matcher -/

/-- A captured `(\d+)` group: nonempty, all ASCII digits. -/
def okDigits (g : List Char) : Prop := g ≠ [] ∧ ∀ c ∈ g, c.isDigit = true

instance (g : List Char) : Decidable (okDigits g) := by
  unfold okDigits; infer_instance

theorem takeWhile_append_of_all (p : Char → Bool) :
    ∀ (g t : List Char), (∀ c ∈ g, p c = true) →
      (∀ c, t.head? = some c → p c = false) →
      (g ++ t).takeWhile p = g ∧ (g ++ t).dropWhile p = t := by
  intro g
  induction g with
  | nil =>
      intro t _ ht
      cases t with
      | nil => simp [List.takeWhile, List.dropWhile]
      | cons c t' =>
          have hc : p c = false := ht c rfl
          simp [List.takeWhile, List.dropWhile, hc]
  | cons a g' ih =>
      intro t hg ht
      have ha : p a = true := hg a (by simp)
      have := ih t (fun c hc => hg c (by simp [hc])) ht
      simp [List.takeWhile, List.dropWhile, ha, this.1, this.2]

theorem head?_dropWhile_false (p : Char → Bool) :
    ∀ (l : List Char) (c : Char), (l.dropWhile p).head? = some c → p c = false := by
  intro l
  induction l with
  | nil => intro c hc; simp [List.dropWhile] at hc
  | cons a l' ih =>
      intro c hc
      by_cases ha : p a = true
      · exact ih c (by simpa [List.dropWhile, ha] using hc)
      · have ha' : p a = false := by simpa using ha
        rw [List.dropWhile_cons] at hc
        simp only [ha', List.head?] at hc
        cases hc
        exact ha'

theorem mem_takeWhile_pred (p : Char → Bool) :
    ∀ (l : List Char) (c : Char), c ∈ l.takeWhile p → p c = true := by
  intro l
  induction l with
  | nil => intro c hc; simp [List.takeWhile] at hc
  | cons a l' ih =>
      intro c hc
      by_cases ha : p a = true
      · rw [List.takeWhile_cons, if_pos ha] at hc
        rcases List.mem_cons.mp hc with hc | hc
        · exact hc ▸ ha
        · exact ih c hc
      · have ha' : p a = false := by simpa using ha
        rw [List.takeWhile_cons, if_neg ha] at hc
        simp at hc

/-- Completeness of `matchNums`: a well-shaped input is matched with
exactly its digit groups, provided what follows the last group does not
begin with a digit. -/
theorem matchNums_complete :
    ∀ (ds : List (List Char)) (rest : List Char),
      (∀ g ∈ ds, okDigits g) →
      (∀ c, rest.head? = some c → c.isDigit = false) →
      matchNums ds.length ((ds.map (fun g => ' ' :: g)).flatten ++ rest) = some ds := by
  intro ds
  induction ds with
  | nil => intro rest _ _; simp [matchNums]
  | cons g ds' ih =>
      intro rest hall hrest
      have hg : okDigits g := hall g (by simp)
      have htail : ∀ c, ((ds'.map (fun g => ' ' :: g)).flatten ++ rest).head? = some c →
          c.isDigit = false := by
        intro c hc
        cases ds' with
        | nil => exact hrest c (by simpa using hc)
        | cons g₂ ds'' =>
            simp [List.head?] at hc
            simp [← hc]
      have hsplit := takeWhile_append_of_all Char.isDigit g
        ((ds'.map (fun g => ' ' :: g)).flatten ++ rest) hg.2 htail
      have : (' ' :: g ++ ((ds'.map (fun g => ' ' :: g)).flatten ++ rest))
          = ' ' :: (g ++ ((ds'.map (fun g => ' ' :: g)).flatten ++ rest)) := rfl
      simp only [List.map_cons, List.flatten_cons, List.length_cons]
      rw [List.append_assoc, this]
      simp only [matchNums, if_pos rfl]
      rw [hsplit.1, hsplit.2]
      simp only [if_neg hg.1]
      rw [ih rest (fun g hg => hall g (by simp [hg])) hrest]
      rfl

/-- Soundness of `matchNums`: a successful match decomposes the input
into the captured digit groups, each preceded by one space, followed by a
remainder that does not begin with a digit (for `n > 0`). -/
theorem matchNums_sound :
    ∀ (n : Nat) (s : List Char) (gs : List (List Char)),
      matchNums n s = some gs →
      gs.length = n ∧ (∀ g ∈ gs, okDigits g) ∧
        ∃ rest, s = (gs.map (fun g => ' ' :: g)).flatten ++ rest ∧
          (0 < n → ∀ c, rest.head? = some c → c.isDigit = false) := by
  intro n
  induction n with
  | zero =>
      intro s gs h
      simp [matchNums] at h
      subst h
      exact ⟨rfl, by simp, s, by simp, by omega⟩
  | succ m ih =>
      intro s gs h
      cases s with
      | nil => simp [matchNums] at h
      | cons c s' =>
          by_cases hc : c = ' '
          · subst hc
            simp only [matchNums, if_pos rfl] at h
            by_cases hds : s'.takeWhile Char.isDigit = []
            · simp [hds] at h
            · rw [if_neg hds] at h
              rcases hmm : matchNums m (s'.dropWhile Char.isDigit) with _ | gs'
              · rw [hmm] at h; simp at h
              obtain rfl : s'.takeWhile Char.isDigit :: gs' = gs := by
                rw [hmm] at h; simpa using h
              obtain ⟨hlen, hall, rest, hs, hrest⟩ := ih _ _ hmm
              refine ⟨by simp [hlen], ?_, rest, ?_, ?_⟩
              · intro g hg
                rcases List.mem_cons.mp hg with rfl | hg
                · exact ⟨hds, fun c hc => mem_takeWhile_pred _ _ _ hc⟩
                · exact hall g hg
              · have : s' = s'.takeWhile Char.isDigit ++ s'.dropWhile Char.isDigit :=
                  (List.takeWhile_append_dropWhile Char.isDigit s').symm
                conv_lhs => rw [this]
                simp only [List.map_cons, List.flatten_cons, List.cons_append]
                rw [hs, List.append_assoc]
              · intro _
                cases Nat.eq_zero_or_pos m with
                | inl hm =>
                    subst hm
                    have hnil : gs' = [] := List.length_eq_zero.mp hlen
                    subst hnil
                    simp only [List.map_nil, List.flatten_nil, List.nil_append] at hs
                    intro c hc
                    exact head?_dropWhile_false Char.isDigit s' c (hs ▸ hc)
                | inr hm => exact hrest hm
          · simp [matchNums, hc] at h

/-! ### The reference rendering of a sensor-id byte -/

/-- The hex digit table, as the spec describes the rendering. -/
def hexTable : List Char := "0123456789ABCDEF".data

/-- The spec's rendering of one raw byte: exactly two zero-padded
upper-case hex digits. -/
def refHexByte (n : Nat) : List Char :=
  [hexTable.getD (n / 16) '0', hexTable.getD (n % 16) '0']

theorem hexDigitChar_eq_table : ∀ d : Nat, d < 16 → hexDigitChar d = hexTable.getD d '0' := by
  intro d hd
  interval_cases d <;> rfl

theorem hexStrAux_small (n : Nat) (hn : n < 16) :
    ∀ (fuel : Nat) (acc : List Char), hexStrAux fuel n acc = hexDigitChar n :: acc := by
  intro fuel acc
  cases fuel with
  | zero => rfl
  | succ f => simp [hexStrAux, hn]

/-- `'{:02X}'.format` agrees with the spec's two-digit rendering on byte
values. -/
theorem format02X_byte (n : Nat) (hn : n < 256) : format02X n = refHexByte n := by
  by_cases h16 : n < 16
  · rw [show refHexByte n = [hexDigitChar (n / 16), hexDigitChar (n % 16)] from by
      unfold refHexByte
      rw [hexDigitChar_eq_table _ (by omega), hexDigitChar_eq_table _ (by omega)]]
    rw [Nat.div_eq_of_lt h16, Nat.mod_eq_of_lt h16]
    unfold format02X
    rw [hexStrAux_small n h16]
    rfl
  · rw [show refHexByte n = [hexDigitChar (n / 16), hexDigitChar (n % 16)] from by
      unfold refHexByte
      rw [hexDigitChar_eq_table _ (by omega), hexDigitChar_eq_table _ (by omega)]]
    unfold format02X
    cases n with
    | zero => omega
    | succ m =>
        rw [show hexStrAux (m + 1) (m + 1) [] =
            hexStrAux m ((m + 1) / 16) [hexDigitChar ((m + 1) % 16)] from by
          simp [hexStrAux, h16]]
        rw [hexStrAux_small _ (by omega)]
        rfl

theorem map_getD_digits (l : List (List Char)) (i : Nat) :
    (l.map digitsToNat).getD i 0 = digitsToNat (l.getD i []) := by
  rw [List.getD_eq_getElem?_getD, List.getD_eq_getElem?_getD, List.getElem?_map]
  cases l[i]? <;> rfl

/-- C1: For every line of the telemetry shape — the literal `OK` followed
by 21 space-separated unsigned integers (and a remainder that does not
start with a digit, so that the 21st group is what the greedy regex
captures) — `_parse` produces a `Reading` whose fields equal the
reference decoding: `sensortype` = field 0; `sensorid` = fields 1,2 each
rendered as 2 zero-padded upper-case hex digits (the rendering the claim
describes, well-defined for byte-valued fields) and concatenated;
`ontime`/`totaltime`/`energy` = big-endian 32-bit values from fields 3-6,
7-10, 11-14; `power`/`maxpower` = big-endian 16-bit values from fields
15-16 and 17-18; `resets` = field 19. -/
theorem parse_reading_fields :
    ∀ (ds : List (List Char)) (rest line : List Char),
      ds.length = 21 →
      (∀ g ∈ ds, okDigits g) →
      (∀ c, rest.head? = some c → c.isDigit = false) →
      line = 'O' :: 'K' :: ((ds.map (fun g => ' ' :: g)).flatten ++ rest) →
      ∃ r, LaCrosseSensor_parse line = some r
        ∧ r.sensortype = digitsToNat (ds.getD 0 [])
        ∧ (digitsToNat (ds.getD 1 []) < 256 → digitsToNat (ds.getD 2 []) < 256 →
            r.sensorid = refHexByte (digitsToNat (ds.getD 1 []))
              ++ refHexByte (digitsToNat (ds.getD 2 [])))
        ∧ r.ontime = digitsToNat (ds.getD 3 []) * 2 ^ 24
            + digitsToNat (ds.getD 4 []) * 2 ^ 16
            + digitsToNat (ds.getD 5 []) * 2 ^ 8 + digitsToNat (ds.getD 6 [])
        ∧ r.totaltime = digitsToNat (ds.getD 7 []) * 2 ^ 24
            + digitsToNat (ds.getD 8 []) * 2 ^ 16
            + digitsToNat (ds.getD 9 []) * 2 ^ 8 + digitsToNat (ds.getD 10 [])
        ∧ r.energy = digitsToNat (ds.getD 11 []) * 2 ^ 24
            + digitsToNat (ds.getD 12 []) * 2 ^ 16
            + digitsToNat (ds.getD 13 []) * 2 ^ 8 + digitsToNat (ds.getD 14 [])
        ∧ r.power = digitsToNat (ds.getD 15 []) * 2 ^ 8 + digitsToNat (ds.getD 16 [])
        ∧ r.maxpower = digitsToNat (ds.getD 17 []) * 2 ^ 8 + digitsToNat (ds.getD 18 [])
        ∧ r.resets = digitsToNat (ds.getD 19 []) := by
  intro ds rest line hlen hall hrest hline
  have hmatch : re_reading_match line = some ds := by
    rw [hline]
    show (if 'O' = 'O' then if 'K' = 'K' then
        matchNums 21 ((ds.map (fun g => ' ' :: g)).flatten ++ rest) else none
      else none) = some ds
    rw [if_pos rfl, if_pos rfl, ← hlen]
    exact matchNums_complete ds rest hall hrest
  refine ⟨_, by rw [LaCrosseSensor_parse, hmatch], ?_, ?_, ?_, ?_, ?_, ?_, ?_, ?_⟩
  · exact map_getD_digits ds 0
  · intro h1 h2
    show format02X ((ds.map digitsToNat).getD 1 0)
        ++ format02X ((ds.map digitsToNat).getD 2 0) = _
    rw [map_getD_digits ds 1, map_getD_digits ds 2,
      format02X_byte _ h1, format02X_byte _ h2]
  all_goals simp only [map_getD_digits]
  all_goals norm_num

/-- Witness for C1 at the concrete line
`OK 1 9 248 0 0 0 1 0 0 1 0 4 0 0 0 0 150 0 106 3 0`. -/
theorem parse_reading_fields_witness :
    ∃ r, LaCrosseSensor_parse
        "OK 1 9 248 0 0 0 1 0 0 1 0 4 0 0 0 0 150 0 106 3 0".data = some r
      ∧ r.sensortype = 1 ∧ r.sensorid = "09F8".data
      ∧ r.ontime = 1 ∧ r.totaltime = 256 ∧ r.energy = 67108864
      ∧ r.power = 150 ∧ r.maxpower = 106 ∧ r.resets = 3 := by
  obtain ⟨r, hp, h0, h12, h3, h7, h11, h15, h17, h19⟩ :=
    parse_reading_fields
      [['1'], ['9'], ['2','4','8'], ['0'], ['0'], ['0'], ['1'], ['0'], ['0'],
       ['1'], ['0'], ['4'], ['0'], ['0'], ['0'], ['0'], ['1','5','0'], ['0'],
       ['1','0','6'], ['3'], ['0']] []
      "OK 1 9 248 0 0 0 1 0 0 1 0 4 0 0 0 0 150 0 106 3 0".data
      (by decide) (by decide) (by simp) (by decide)
  exact ⟨r, hp, h0.trans (by decide), (h12 (by decide) (by decide)).trans (by decide),
    h3.trans (by decide), h7.trans (by decide), h11.trans (by decide),
    h15.trans (by decide), h17.trans (by decide), h19.trans (by decide)⟩

/-! ### Whitespace tokenisation (for stating what a "field" of the line is) -/

/-- Helper for `words`: `acc` carries the (reversed) token in progress. -/
def wordsAux : List Char → List Char → List (List Char)
  | [], acc => if acc = [] then [] else [acc.reverse]
  | c :: cs, acc =>
      if c = ' ' then
        (if acc = [] then wordsAux cs [] else acc.reverse :: wordsAux cs [])
      else wordsAux cs (c :: acc)

/-- Python `str.split()` restricted to the space separator: the maximal
nonempty space-free tokens of the line (the matched region of a telemetry
line is separated by single spaces, so this is the tokenisation the claim
speaks about). -/
def words (s : List Char) : List (List Char) := wordsAux s []

theorem wordsAux_token :
    ∀ (t : List Char) (acc r : List Char), (∀ c ∈ t, c ≠ ' ') →
      acc.reverse ++ t ≠ [] →
      wordsAux (t ++ ' ' :: r) acc = (acc.reverse ++ t) :: wordsAux r [] := by
  intro t
  induction t with
  | nil =>
      intro acc r _ hne
      have hacc : acc ≠ [] := by
        intro h; exact hne (by simp [h])
      simp [wordsAux, hacc]
  | cons c t' ih =>
      intro acc r ht hne
      have hc : c ≠ ' ' := ht c (by simp)
      rw [show (c :: t') ++ ' ' :: r = c :: (t' ++ ' ' :: r) from rfl,
        show wordsAux (c :: (t' ++ ' ' :: r)) acc
          = wordsAux (t' ++ ' ' :: r) (c :: acc) from by simp [wordsAux, hc],
        ih (c :: acc) r (fun x hx => ht x (by simp [hx])) (by simp)]
      simp

theorem wordsAux_last :
    ∀ (cs acc : List Char), acc ≠ [] →
      ∃ tail, wordsAux cs acc
        = (acc.reverse ++ cs.takeWhile (fun c => !(c = ' '))) :: tail := by
  intro cs
  induction cs with
  | nil =>
      intro acc hacc
      exact ⟨[], by simp [wordsAux, hacc]⟩
  | cons c cs' ih =>
      intro acc hacc
      by_cases hc : c = ' '
      · subst hc
        refine ⟨wordsAux cs' [], ?_⟩
        simp [wordsAux, hacc, List.takeWhile_cons]
      · obtain ⟨tail, htail⟩ := ih (c :: acc) (by simp)
        refine ⟨tail, ?_⟩
        rw [show wordsAux (c :: cs') acc = wordsAux cs' (c :: acc) from by
          simp [wordsAux, hc], htail]
        simp [List.takeWhile_cons, hc]

theorem words_token (t r : List Char) (ht : ∀ c ∈ t, c ≠ ' ') (hne : t ≠ []) :
    words (t ++ ' ' :: r) = t :: words r := by
  unfold words
  rw [wordsAux_token t [] r ht (by simpa using hne)]
  simp

/-- Digit characters are not spaces. -/
theorem digit_ne_space {c : Char} (h : c.isDigit = true) : c ≠ ' ' := by
  intro hc
  subst hc
  simp [Char.isDigit] at h

theorem words_cons_space (s : List Char) : words (' ' :: s) = words s := by
  simp [words, wordsAux]

theorem takeWhile_append_all (p : Char → Bool) :
    ∀ (a b : List Char), (∀ c ∈ a, p c = true) →
      (a ++ b).takeWhile p = a ++ b.takeWhile p := by
  intro a
  induction a with
  | nil => intro b _; rfl
  | cons c a' ih =>
      intro b h
      have hc : p c = true := h c (by simp)
      simp only [List.cons_append, List.takeWhile_cons, hc, if_true]
      rw [ih b (fun x hx => h x (by simp [hx]))]

/-- The first token of `g ++ rest`, for a nonempty space-free `g`, is `g`
fused with the space-free run that begins `rest`. -/
theorem words_first_token (g rest : List Char) (hne : g ≠ [])
    (hg : ∀ c ∈ g, c ≠ ' ') :
    ∃ tail, words (g ++ rest)
      = (g ++ rest.takeWhile (fun c => !(c = ' '))) :: tail := by
  cases g with
  | nil => exact absurd rfl hne
  | cons c g' =>
      have hc : c ≠ ' ' := hg c (by simp)
      obtain ⟨tail, htail⟩ := wordsAux_last (g' ++ rest) [c] (by simp)
      refine ⟨tail, ?_⟩
      rw [show (c :: g') ++ rest = c :: (g' ++ rest) from rfl]
      unfold words
      rw [show wordsAux (c :: (g' ++ rest)) [] = wordsAux (g' ++ rest) [c] from by
        simp [wordsAux, hc]]
      rw [htail, takeWhile_append_all _ g' rest
        (fun x hx => by simpa using hg x (by simp [hx]))]
      simp

/-- The tokenisation of the matched region of a telemetry line: one token
per digit group, except that the final group fuses with whatever directly
follows it in the remainder of the line. -/
theorem words_flatten :
    ∀ (gs : List (List Char)) (rest : List Char), gs ≠ [] →
      (∀ g ∈ gs, okDigits g) →
      ∃ w tail, words ((gs.map (fun g => ' ' :: g)).flatten ++ rest)
        = gs.dropLast ++ (gs.getLastD [] ++ w) :: tail := by
  intro gs
  induction gs with
  | nil => intro rest h; exact absurd rfl h
  | cons g gs' ih =>
      intro rest _ hall
      have hg : okDigits g := hall g (by simp)
      have hgs : ∀ c ∈ g, c ≠ ' ' := fun c hc => digit_ne_space (hg.2 c hc)
      cases gs' with
      | nil =>
          obtain ⟨tail, htail⟩ := words_first_token g rest hg.1 hgs
          refine ⟨rest.takeWhile (fun c => !(c = ' ')), tail, ?_⟩
          rw [show ((List.map (fun g => ' ' :: g) [g]).flatten ++ rest)
              = ' ' :: (g ++ rest) from by simp]
          rw [words_cons_space, htail]
          simp [List.getLastD]
      | cons g₂ gs'' =>
          obtain ⟨w, tail, htail⟩ := ih rest (by simp)
            (fun x hx => hall x (by simp [List.mem_cons.mp hx]))
          refine ⟨w, tail, ?_⟩
          have hshape :
              ((g :: g₂ :: gs'').map (fun g => ' ' :: g)).flatten ++ rest
                = ' ' :: (g ++ ' ' ::
                    (g₂ ++ (((gs''.map (fun g => ' ' :: g)).flatten) ++ rest))) := by
            simp
          rw [hshape, words_cons_space, words_token g _ hgs hg.1]
          have hrest :
              words (g₂ ++ ((gs''.map (fun g => ' ' :: g)).flatten ++ rest))
                = words (((g₂ :: gs'').map (fun g => ' ' :: g)).flatten ++ rest) := by
            rw [show (((g₂ :: gs'').map (fun g => ' ' :: g)).flatten ++ rest)
                = ' ' :: (g₂ ++ ((gs''.map (fun g => ' ' :: g)).flatten ++ rest)) from by
              simp]
            rw [words_cons_space]
          rw [hrest, htail]
          simp [List.getLastD]

theorem head?_append_left {a b : List Char} (h : a ≠ []) :
    (a ++ b).head? = a.head? := by
  cases a with
  | nil => exact absurd rfl h
  | cons c a' => rfl

/-- Unpacking a successful `re_reading.match`: the shape of the line and
the shape of its space-separated tokenisation. -/
theorem words_of_reading_match (line : List Char) (gs : List (List Char))
    (h : re_reading_match line = some gs) :
    gs.length = 21 ∧ (∀ g ∈ gs, okDigits g) ∧
      (∃ rest, line = 'O' :: 'K' :: ((gs.map (fun g => ' ' :: g)).flatten ++ rest)) ∧
      ∃ w tail, words line
        = ['O', 'K'] :: (gs.dropLast ++ (gs.getLastD [] ++ w) :: tail) := by
  rcases line with _ | ⟨a, _ | ⟨b, t⟩⟩
  · simp [re_reading_match] at h
  · simp [re_reading_match] at h
  rw [show re_reading_match (a :: b :: t)
      = (if a = 'O' then if b = 'K' then matchNums 21 t else none else none)
    from rfl] at h
  split_ifs at h with ha hb
  · subst ha
    subst hb
    obtain ⟨hlen, hall, rest, ht, _⟩ := matchNums_sound 21 t gs h
    have hne : gs ≠ [] := by
      intro hgs; rw [hgs] at hlen; simp at hlen
    obtain ⟨w, tail, hwords⟩ := words_flatten gs rest hne hall
    refine ⟨hlen, hall, ⟨rest, by rw [ht]⟩, w, tail, ?_⟩
    subst ht
    rcases gs with _ | ⟨g1, gs'⟩
    · exact absurd rfl hne
    have hsh : 'O' :: 'K' :: (((g1 :: gs').map (fun g => ' ' :: g)).flatten ++ rest)
        = ['O', 'K'] ++ ' ' :: (g1 ++ ((gs'.map (fun g => ' ' :: g)).flatten ++ rest)) := by
      simp
    rw [show ((g1 :: gs').map (fun g => ' ' :: g)).flatten ++ rest
        = ' ' :: (g1 ++ ((gs'.map (fun g => ' ' :: g)).flatten ++ rest)) from by simp,
      words_cons_space] at hwords
    calc words ('O' :: 'K' :: (((g1 :: gs').map (fun g => ' ' :: g)).flatten ++ rest))
        = words (['O', 'K'] ++ ' ' :: (g1 ++ ((gs'.map (fun g => ' ' :: g)).flatten ++ rest))) := by
          rw [hsh]
      _ = ['O', 'K'] :: words (g1 ++ ((gs'.map (fun g => ' ' :: g)).flatten ++ rest)) :=
          words_token ['O', 'K'] _ (by decide) (by simp)
      _ = ['O', 'K'] :: ((g1 :: gs').dropLast ++ ((g1 :: gs').getLastD [] ++ w) :: tail) := by
          rw [hwords]

/-- C4 (amended): `_parse` yields no reading for every line that does not
begin with the literal `OK`; for every line with fewer than 21
space-separated tokens after the `OK` token; for every line whose first
20 tokens after `OK` are not all nonempty digit strings; and for every
line whose 21st token after `OK` does not begin with a digit.  (The
original claim also promised "no match" when the 21st token merely
contains a non-digit — that fails, see the counterexample: the greedy
regex is happy as long as the 21st token begins with digits.) -/
theorem parse_reading_no_match :
    ∀ line : List Char,
      ((∀ t, line ≠ 'O' :: 'K' :: t) → LaCrosseSensor_parse line = none)
      ∧ ((words line).length < 22 → LaCrosseSensor_parse line = none)
      ∧ (∀ ts t i, words line = ['O', 'K'] :: ts → i < 20 → ts[i]? = some t →
          ¬ okDigits t → LaCrosseSensor_parse line = none)
      ∧ (∀ ts t c, words line = ['O', 'K'] :: ts → ts[20]? = some t →
          t.head? = some c → c.isDigit = false → LaCrosseSensor_parse line = none) := by
  intro line
  rcases hm : re_reading_match line with _ | gs
  · have hnone : LaCrosseSensor_parse line = none := by
      unfold LaCrosseSensor_parse; rw [hm]
    exact ⟨fun _ => hnone, fun _ => hnone, fun _ _ _ _ _ _ _ => hnone,
      fun _ _ _ _ _ _ _ => hnone⟩
  obtain ⟨hlen, hall, ⟨rest, hline⟩, w, tail, hwords⟩ :=
    words_of_reading_match line gs hm
  have hdrop : gs.dropLast.length = 20 := by
    rw [List.length_dropLast, hlen]
  refine ⟨?_, ?_, ?_, ?_⟩
  · intro hno
    exact absurd hline (hno _)
  · intro hlt
    rw [hwords] at hlt
    simp only [List.length_cons, List.length_append, hdrop] at hlt
    omega
  · intro ts t i hts hi hget hbad
    exfalso
    rw [hwords] at hts
    obtain rfl : gs.dropLast ++ (gs.getLastD [] ++ w) :: tail = ts :=
      (List.cons_inj_right _).mp hts
    rw [List.getElem?_append, if_pos (by omega), List.dropLast_eq_take,
      List.getElem?_take_of_lt (by omega)] at hget
    exact hbad (hall t (List.getElem?_mem hget))
  · intro ts t c hts hget hhead hdig
    exfalso
    rw [hwords] at hts
    obtain rfl : gs.dropLast ++ (gs.getLastD [] ++ w) :: tail = ts :=
      (List.cons_inj_right _).mp hts
    rw [List.getElem?_append_right (by omega), hdrop] at hget
    simp only [Nat.sub_self, List.getElem?_cons_zero] at hget
    obtain rfl : gs.getLastD [] ++ w = t := by simpa using hget
    have hne : gs ≠ [] := by
      intro h0; rw [h0] at hlen; simp at hlen
    have hmem : gs.getLastD [] ∈ gs := by
      rw [List.getLastD_eq_getLast?, List.getLast?_eq_getLast gs hne]
      exact List.getLast_mem hne
    have hok : okDigits (gs.getLastD []) := hall _ hmem
    rw [head?_append_left hok.1] at hhead
    have hcmem : c ∈ gs.getLastD [] := by
      rcases hnl : gs.getLastD [] with _ | ⟨c0, g'⟩
      · exact absurd hnl hok.1
      · rw [hnl] at hhead
        simp only [List.head?, Option.some_inj] at hhead
        rw [← hhead]
        exact List.mem_cons_self c0 g'
    rw [hok.2 c hcmem] at hdig
    exact absurd hdig (by simp)

/-- C4 (counterexample): the line
`OK 0 0 0 0 0 0 0 0 0 0 0 0 0 0 0 0 0 0 0 0 0]` has only 20 whitespace
separated integer tokens after `OK` (fewer than 21), and its 21st token
`0]` is not an integer token, yet `_parse` succeeds on it — the claim
promised "no match" for such a line. -/
theorem parse_reading_counterexample :
    ((words "OK 0 0 0 0 0 0 0 0 0 0 0 0 0 0 0 0 0 0 0 0 0]".data).headD []
        = ['O', 'K'])
    ∧ ((words "OK 0 0 0 0 0 0 0 0 0 0 0 0 0 0 0 0 0 0 0 0 0]".data).drop 1).countP
        (fun t => decide (okDigits t)) = 20
    ∧ ((words "OK 0 0 0 0 0 0 0 0 0 0 0 0 0 0 0 0 0 0 0 0 0]".data).drop 1).getD 20 []
        = ['0', ']']
    ∧ LaCrosseSensor_parse "OK 0 0 0 0 0 0 0 0 0 0 0 0 0 0 0 0 0 0 0 0 0]".data
        ≠ none := by
  refine ⟨by decide, by decide, by decide, by decide⟩

/-- Witness for C4: a line without the `OK` prefix parses to nothing. -/
theorem parse_reading_no_match_witness :
    (∀ t, "hello world".data ≠ 'O' :: 'K' :: t)
    ∧ LaCrosseSensor_parse "hello world".data = none := by
  have hpre : ∀ t, "hello world".data ≠ 'O' :: 'K' :: t := by
    intro t h
    have h2 : ("hello world".data).head? = some 'h' := rfl
    rw [h] at h2
    simp only [List.head?_cons, Option.some_inj] at h2
    exact absurd h2 (by decide)
  exact ⟨hpre, (parse_reading_no_match "hello world".data).1 hpre⟩

/-! ### `_parse_info`: mode decoding and the no-match result -/

theorem splitOn_not_mem (sep : Char) :
    ∀ l : List Char, sep ∉ l → splitOnChar sep l = [l] := by
  intro l
  induction l with
  | nil => intro _; rfl
  | cons c cs ih =>
      intro h
      have hc : ¬c = sep := by
        intro hc; exact h (by simp [hc])
      have hcs : sep ∉ cs := fun hm => h (by simp [hm])
      simp only [splitOnChar, if_neg hc, ih hcs]

theorem splitOn_append (sep : Char) :
    ∀ (a b : List Char), sep ∉ a →
      splitOnChar sep (a ++ sep :: b) = a :: splitOnChar sep b := by
  intro a
  induction a with
  | nil =>
      intro b _
      simp [splitOnChar]
  | cons c a' ih =>
      intro b h
      have hc : ¬c = sep := by
        intro hc; exact h (by simp [hc])
      have ha' : sep ∉ a' := fun hm => h (by simp [hm])
      simp only [List.cons_append, splitOnChar, if_neg hc]
      rw [show a'.append (sep :: b) = a' ++ sep :: b from rfl, ih b ha']

/-- C3: on every info line matching the bracketed shape, with the mode
group of the single-letter-discriminator form `c:value`, `_parse_info`
populates exactly one of the two mode-dependent groups: discriminator
`'r'` sets `rfm1datarate` to the value and leaves both toggle fields
absent; discriminator `'t'` splits the value at `'~'` into
`rfm1toggleinterval` and `rfm1togglemask` and leaves `rfm1datarate`
absent. -/
theorem parse_info_mode :
    ∀ (line : List Char) (gs : List (List Char)) (v : List Char),
      rmatch infoPattern line = some gs →
      ((gs.getD 16 [] = 'r' :: ':' :: v → ':' ∉ v →
        ∃ d, parse_info line = some d ∧ d.rfm1datarate = some v
          ∧ d.rfm1toggleinterval = none ∧ d.rfm1togglemask = none)
      ∧ (∀ iv mk, gs.getD 16 [] = 't' :: ':' :: v → ':' ∉ v →
          v = iv ++ '~' :: mk → '~' ∉ iv → '~' ∉ mk →
        ∃ d, parse_info line = some d ∧ d.rfm1toggleinterval = some iv
          ∧ d.rfm1togglemask = some mk ∧ d.rfm1datarate = none)) := by
  intro line gs v hmatch
  constructor
  · intro hmode hv
    have hsplit : splitOnChar ':' (gs.getD 16 []) = [['r'], v] := by
      rw [hmode, show ('r' :: ':' :: v) = ['r'] ++ ':' :: v from rfl,
        splitOn_append ':' ['r'] v (by simp), splitOn_not_mem ':' v hv]
    unfold parse_info
    rw [hmatch]
    dsimp only
    rw [hsplit]
    rw [show (([['r'], v]).getD 0 []) = ['r'] from rfl, if_pos rfl,
      show ([['r'], v]).get? 1 = some v from rfl]
    exact ⟨_, rfl, rfl, rfl, rfl⟩
  · intro iv mk hmode hv hveq hiv hmk
    have hsplit : splitOnChar ':' (gs.getD 16 []) = [['t'], v] := by
      rw [hmode, show ('t' :: ':' :: v) = ['t'] ++ ':' :: v from rfl,
        splitOn_append ':' ['t'] v (by simp), splitOn_not_mem ':' v hv]
    have htog : splitOnChar '~' v = [iv, mk] := by
      rw [hveq, splitOn_append '~' iv mk hiv, splitOn_not_mem '~' mk hmk]
    unfold parse_info
    rw [hmatch]
    dsimp only
    rw [hsplit]
    rw [show (([['t'], v]).getD 0 []) = ['t'] from rfl, if_neg (by decide),
      if_pos rfl, show ([['t'], v]).get? 1 = some v from rfl]
    dsimp only
    rw [htog]
    exact ⟨_, rfl, rfl, rfl, rfl⟩

/-- Witness for C3: the info line `[A.B.1 (1=R f:1 r:2) {IP=x}]` with
discriminator `r` yields the data rate `2` and no toggle fields. -/
theorem parse_info_mode_witness :
    ∃ d, parse_info "[A.B.1 (1=R f:1 r:2) \x7bIP=x\x7d]".data = some d
      ∧ d.rfm1datarate = some ['2']
      ∧ d.rfm1toggleinterval = none ∧ d.rfm1togglemask = none := by
  exact (parse_info_mode "[A.B.1 (1=R f:1 r:2) \x7bIP=x\x7d]".data _ ['2'] rfl).1
    rfl (by decide)

/-- C5 (amended): on a line that does not match the info regex,
`_parse_info` returns the freshly constructed result with every one of
the eight fields absent (the function builds a new dict on every call, so
nothing can leak between calls); on a line that does match but whose mode
discriminator is neither `r` nor `t`, the three mode-dependent fields are
absent but the structural fields (e.g. `name`) are populated — contrary
to the original claim, which promised an all-absent result for such
lines. -/
theorem parse_info_no_match :
    (∀ line, rmatch infoPattern line = none → parse_info line = some emptyInfo)
    ∧ (emptyInfo.name = none ∧ emptyInfo.version = none ∧ emptyInfo.address = none
      ∧ emptyInfo.rfm1name = none ∧ emptyInfo.rfm1frequency = none
      ∧ emptyInfo.rfm1datarate = none ∧ emptyInfo.rfm1toggleinterval = none
      ∧ emptyInfo.rfm1togglemask = none)
    ∧ (∀ line gs, rmatch infoPattern line = some gs →
        (splitOnChar ':' (gs.getD 16 [])).getD 0 [] ≠ ['r'] →
        (splitOnChar ':' (gs.getD 16 [])).getD 0 [] ≠ ['t'] →
        ∃ d, parse_info line = some d
          ∧ d.rfm1datarate = none ∧ d.rfm1toggleinterval = none
          ∧ d.rfm1togglemask = none
          ∧ d.name = some (gs.getD 1 [] ++ gs.getD 2 [] ++ gs.getD 3 [])) := by
  refine ⟨?_, ⟨rfl, rfl, rfl, rfl, rfl, rfl, rfl, rfl⟩, ?_⟩
  · intro line h
    unfold parse_info
    rw [h]
  · intro line gs hmatch hr ht
    unfold parse_info
    rw [hmatch]
    dsimp only
    rw [if_neg hr, if_neg ht]
    exact ⟨_, rfl, rfl, rfl, rfl, rfl⟩

/-- C5 (counterexample): the line `[Foo.Bar.1 (1=RFM69 f:868300 x:8) {IP=1.2.3.4}]`
matches the info regex with mode group `x:8` — a discriminator that is
neither `r` nor `t`, i.e. a line on which the parse "does not succeed" in
the claim's sense — yet `_parse_info` returns a result whose `name`
field (among others) is populated, not the all-absent result the claim
promises. -/
theorem parse_info_counterexample :
    (rmatch infoPattern "[Foo.Bar.1 (1=RFM69 f:868300 x:8) \x7bIP=1.2.3.4\x7d]".data).map
        (fun gs => gs.getD 16 []) = some ('x' :: ':' :: ['8'])
    ∧ (parse_info "[Foo.Bar.1 (1=RFM69 f:868300 x:8) \x7bIP=1.2.3.4\x7d]".data).map
        Info.name = some (some "Foo.Bar".data)
    ∧ (parse_info "[Foo.Bar.1 (1=RFM69 f:868300 x:8) \x7bIP=1.2.3.4\x7d]".data).map
        Info.rfm1datarate = some none
    ∧ (parse_info "[Foo.Bar.1 (1=RFM69 f:868300 x:8) \x7bIP=1.2.3.4\x7d]".data).map
        Info.rfm1toggleinterval = some none
    ∧ parse_info "[Foo.Bar.1 (1=RFM69 f:868300 x:8) \x7bIP=1.2.3.4\x7d]".data
        ≠ some emptyInfo := by
  exact ⟨rfl, rfl, rfl, rfl, by decide⟩

/-- Witness for C5: a plain non-bracketed line does not match the regex
and `_parse_info` returns the all-absent result. -/
theorem parse_info_no_match_witness :
    parse_info "hello".data = some emptyInfo :=
  parse_info_no_match.1 "hello".data rfl

/-- C9: the claim says the `{IP=...}` portion is optional, but the regex
of `_parse_info` requires it: the documented firmware output
`[LaCrosseITPlusReader.Gateway.1.35 (1=RFM69 f:868300 r:8)]` (no IP part)
does not match at all — `_parse_info` returns the all-absent dict rather
than a populated `DeviceInfo` with `address` absent.  With the IP part
present, the very same line parses and `address` is populated, confirming
that on every successful parse the address is present, never absent. -/
theorem info_requires_ip :
    rmatch infoPattern
        "[LaCrosseITPlusReader.Gateway.1.35 (1=RFM69 f:868300 r:8)]".data = none
    ∧ parse_info
        "[LaCrosseITPlusReader.Gateway.1.35 (1=RFM69 f:868300 r:8)]".data
        = some emptyInfo
    ∧ (parse_info
        "[LaCrosseITPlusReader.Gateway.1.35 (1=RFM69 f:868300 r:8) \x7bIP=192.168.178.40\x7d]".data).map
        Info.address = some (some "192.168.178.40".data) := by
  exact ⟨rfl, rfl, rfl⟩

/-! ### The ingestion loop and callback dispatch -/

theorem alookup_insert_self {β : Type} (k : List Char) (v : β) :
    ∀ l, alookup k (insertAssoc k v l) = some v := by
  intro l
  induction l with
  | nil => simp [insertAssoc, alookup]
  | cons e t ih =>
      obtain ⟨k', v'⟩ := e
      by_cases hk : k' = k
      · simp [insertAssoc, alookup, hk]
      · simp only [insertAssoc, if_neg hk, alookup]
        exact ih

theorem alookup_insert_ne {β : Type} (k k' : List Char) (v : β) (h : k' ≠ k) :
    ∀ l, alookup k' (insertAssoc k v l) = alookup k' l := by
  intro l
  induction l with
  | nil =>
      simp only [insertAssoc, alookup]
      rw [if_neg (fun hk => h hk.symm)]
  | cons e t ih =>
      obtain ⟨a, b⟩ := e
      by_cases ha : a = k
      · subst ha
        simp only [insertAssoc, if_pos rfl, alookup]
        rw [if_neg (fun hk => h hk.symm), if_neg (fun hk => h hk.symm)]
      · simp only [insertAssoc, if_neg ha, alookup]
        by_cases ha' : a = k'
        · rw [if_pos ha', if_pos ha']
        · rw [if_neg ha', if_neg ha']
          exact ih

/-- C2: when the ingestion loop receives a line that decodes to a reading
`r`, it (a) stores `r` in `sensors` under `r.sensorid`, overwriting any
previous entry for that id and leaving every other id untouched, and
leaves the registry and catch-all slot unchanged; (b)+(c) the callbacks
invoked are exactly the catch-all (when installed) followed by the
callbacks registered for `r.sensorid`, in list (= registration) order,
each receiving `r`.  `register_callback` appends to the per-id list (so
lists hold callbacks in registration order) and leaves other ids'
registrations unchanged. -/
theorem refresh_dispatch :
    (∀ (κ : Type) (s : GWState κ) (raw : List Char) (r : Reading),
      LaCrosseSensor_parse (pyStrip raw) = some r →
        alookup r.sensorid (refreshStep s raw).1.sensors = some r
        ∧ (∀ k, k ≠ r.sensorid →
            alookup k (refreshStep s raw).1.sensors = alookup k s.sensors)
        ∧ (refreshStep s raw).1.registry = s.registry
        ∧ (refreshStep s raw).1.callback = s.callback
        ∧ (refreshStep s raw).2
            = (s.callback.map (fun c => (c, r))).toList
              ++ ((alookup r.sensorid s.registry).getD []).map (fun cb => (cb, r)))
    ∧ (∀ (κ : Type) (s : GWState κ) (id : List Char) (cb : κ),
        alookup id (register_callback s id cb).registry
          = some (((alookup id s.registry).getD []) ++ [cb]))
    ∧ (∀ (κ : Type) (s : GWState κ) (id id' : List Char) (cb : κ), id' ≠ id →
        alookup id' (register_callback s id cb).registry
          = alookup id' s.registry) := by
  refine ⟨?_, ?_, ?_⟩
  · intro κ s raw r h
    unfold refreshStep
    dsimp only
    rw [h]
    dsimp only
    exact ⟨alookup_insert_self _ _ _,
      fun k hk => alookup_insert_ne _ _ _ hk _, rfl, rfl, rfl⟩
  · intro κ s id cb
    unfold register_callback
    rcases halo : alookup id s.registry with _ | cbs
    · dsimp only
      rw [alookup_insert_self]
      simp
    · dsimp only
      rw [alookup_insert_self]
      simp
  · intro κ s id id' cb hne
    unfold register_callback
    rcases halo : alookup id s.registry with _ | cbs
    · exact alookup_insert_ne _ _ _ hne _
    · exact alookup_insert_ne _ _ _ hne _

/-- Witness for C2: with a catch-all callback `9` installed and callbacks
`3, 4` registered for `09F8`, a reading line for sensor `09F8` updates the
map and fires `9`, then `3`, then `4`. -/
theorem refresh_dispatch_witness :
    alookup "09F8".data
        (refreshStep (GWState.mk [] [("09F8".data, [3, 4])] (some 9))
          "OK 1 9 248 0 0 0 1 0 0 1 0 4 0 0 0 0 150 0 106 3 0".data).1.sensors
      = some (Reading.mk 1 "09F8".data 1 256 67108864 150 106 3)
    ∧ (refreshStep (GWState.mk [] [("09F8".data, [3, 4])] (some 9))
          "OK 1 9 248 0 0 0 1 0 0 1 0 4 0 0 0 0 150 0 106 3 0".data).2
      = [(9, Reading.mk 1 "09F8".data 1 256 67108864 150 106 3),
         (3, Reading.mk 1 "09F8".data 1 256 67108864 150 106 3),
         (4, Reading.mk 1 "09F8".data 1 256 67108864 150 106 3)] := by
  have h := refresh_dispatch.1 Nat (GWState.mk [] [("09F8".data, [3, 4])] (some 9))
    "OK 1 9 248 0 0 0 1 0 0 1 0 4 0 0 0 0 150 0 106 3 0".data
    (Reading.mk 1 "09F8".data 1 256 67108864 150 106 3) rfl
  exact ⟨h.1, h.2.2.2.2.trans (by decide)⟩

/-! ### `get_info` -/

theorem getInfoGo_spec :
    ∀ (pre : List (List Char)) (line : List Char) (post : List (List Char))
      (k sent : Nat),
      (∀ l ∈ pre, bracket_match (pyStrip l) = false) →
      bracket_match (pyStrip line) = true →
      getInfoGo (pre ++ line :: post) k sent
        = (if pre.length < k then sent else sent + (pre.length - k) / 10 + 1,
           parse_info (pyStrip line)) := by
  intro pre
  induction pre with
  | nil =>
      intro line post k sent _ hline
      cases k with
      | zero => simp [getInfoGo, hline]
      | succ j => simp [getInfoGo, hline]
  | cons p pre' ih =>
      intro line post k sent hall hline
      have hp : bracket_match (pyStrip p) = false := hall p (by simp)
      have hall' : ∀ l ∈ pre', bracket_match (pyStrip l) = false :=
        fun l hl => hall l (by simp [hl])
      cases k with
      | zero =>
          rw [show (p :: pre') ++ line :: post = p :: (pre' ++ line :: post) from rfl]
          simp only [getInfoGo, hp, Bool.false_eq_true, if_false]
          rw [ih line post 9 (sent + 1) hall' hline]
          simp only [List.length_cons, Nat.sub_zero, Prod.mk.injEq, and_true]
          by_cases h9 : pre'.length < 9
          · rw [if_pos h9, if_neg (by omega),
              Nat.div_eq_of_lt (show pre'.length + 1 < 10 by omega)]
          · rw [if_neg h9, if_neg (by omega),
              show pre'.length + 1 = (pre'.length - 9) + 10 from by omega,
              Nat.add_div_right _ (by norm_num)]
            omega
      | succ j =>
          rw [show (p :: pre') ++ line :: post = p :: (pre' ++ line :: post) from rfl]
          simp only [getInfoGo, hp, Bool.false_eq_true, if_false]
          rw [ih line post j sent hall' hline]
          simp only [List.length_cons, Prod.mk.injEq, and_true]
          rw [show pre'.length + 1 - (j + 1) = pre'.length - j from by omega]
          by_cases hj : pre'.length < j
          · rw [if_pos hj, if_pos (by omega)]
          · rw [if_neg hj, if_neg (by omega)]

/-- C6: with the socket modelled as a stream of lines, `get_info` sends
`'v'`, reads lines synchronously, re-sends `'v'` after every 10
non-matching reads (so `pre.length / 10 + 1` sends in total when the
first bracket-delimited line is preceded by `pre.length` others), and
returns `_parse_info` of the first bracket-delimited line: whenever that
line parses to `d`, `get_info` returns `d`. -/
theorem get_info_first_info :
    ∀ (pre post : List (List Char)) (line : List Char) (d : Info),
      (∀ l ∈ pre, bracket_match (pyStrip l) = false) →
      bracket_match (pyStrip line) = true →
      parse_info (pyStrip line) = some d →
      get_info (pre ++ line :: post) = (pre.length / 10 + 1, some d) := by
  intro pre post line d hall hline hp
  unfold get_info
  rw [getInfoGo_spec pre line post 0 0 hall hline, hp]
  norm_num

/-- Witness for C6: one junk line, then a full info line; one `'v'` sent
and the parsed `DeviceInfo` returned. -/
theorem get_info_first_info_witness :
    get_info ["foo".data, "[A.B.1 (1=R f:1 r:2) \x7bIP=x\x7d]".data]
      = (1, some (Info.mk (some "A.B".data) (some ['1']) (some ['x'])
          (some ['R']) (some ['1']) (some ['2']) none none)) := by
  have h := get_info_first_info ["foo".data] []
    "[A.B.1 (1=R f:1 r:2) \x7bIP=x\x7d]".data
    (Info.mk (some "A.B".data) (some ['1']) (some ['x']) (some ['R']) (some ['1'])
      (some ['2']) none none)
    (by intro l hl; rw [List.mem_singleton.mp hl]; rfl) rfl rfl
  exact h

/-! ### Command encoding -/

/-- C7: each configuration setter emits the parameter in decimal followed
by its channel letter — lower-case `f`/`r`/`t`/`m` for channel 1,
upper-case `F`/`R`/`T`/`M` for channel 2 — and `_write_cmd` appends CRLF;
in particular `set_frequency 868300` on the two channels produces the
distinct wire commands `868300f` and `868300F`. -/
theorem setter_commands :
    (∀ n : Nat,
      set_frequency n 1 = some (natDec n ++ ['f', '\r', '\n'])
      ∧ set_frequency n 2 = some (natDec n ++ ['F', '\r', '\n'])
      ∧ set_datarate n 1 = some (natDec n ++ ['r', '\r', '\n'])
      ∧ set_datarate n 2 = some (natDec n ++ ['R', '\r', '\n'])
      ∧ set_toggle_interval n 1 = some (natDec n ++ ['t', '\r', '\n'])
      ∧ set_toggle_interval n 2 = some (natDec n ++ ['T', '\r', '\n'])
      ∧ set_toggle_mask n 1 = some (natDec n ++ ['m', '\r', '\n'])
      ∧ set_toggle_mask n 2 = some (natDec n ++ ['M', '\r', '\n']))
    ∧ set_frequency 868300 1 = some "868300f\r\n".data
    ∧ set_frequency 868300 2 = some "868300F\r\n".data
    ∧ set_frequency 868300 1 ≠ set_frequency 868300 2 := by
  refine ⟨fun n => ⟨?_, ?_, ?_, ?_, ?_, ?_, ?_, ?_⟩, by decide, by decide, by decide⟩
  all_goals
    simp [set_frequency, set_datarate, set_toggle_interval, set_toggle_mask,
      cmd_lookup, write_cmd]

/-! ### The background worker -/

/-- C8: in every reachable worker state at most one background ingestion
task is running; `_start_worker` on a state whose `_thread` is set is a
no-op (same handle, same state), and `_start_worker` is idempotent. -/
theorem worker_single :
    (∀ s, WReach s → s.running.length ≤ 1)
    ∧ (∀ s t f, s.thread = some t → start_worker s f = s)
    ∧ (∀ s f g, start_worker (start_worker s f) g = start_worker s f) := by
  have key : ∀ s, WReach s →
      (s.thread = none → s.running = []) ∧ s.running.length ≤ 1 := by
    intro s h
    induction h with
    | init => exact ⟨fun _ => rfl, by simp [workerInit]⟩
    | start s f _ ih =>
        by_cases hth : s.thread.isSome
        · rw [start_worker, if_pos hth]
          exact ih
        · rw [start_worker, if_neg hth]
          have hnone : s.thread = none := Option.not_isSome_iff_eq_none.mp hth
          refine ⟨fun h' => by simp at h', ?_⟩
          show (s.running ++ [f]).length ≤ 1
          rw [ih.1 hnone]
          rfl
    | stop s _ ih =>
        by_cases hth : s.thread.isSome
        · refine ⟨fun h' => ?_, ?_⟩
          · rw [stop_worker] at h'
            dsimp only at h'
            rw [h'] at hth
            simp at hth
          · show (if s.thread.isSome then [] else s.running).length ≤ 1
            rw [if_pos hth]
            simp
        · refine ⟨fun _ => ?_, ?_⟩
          · show (if s.thread.isSome then [] else s.running) = []
            rw [if_neg hth]
            exact ih.1 (Option.not_isSome_iff_eq_none.mp hth)
          · show (if s.thread.isSome then [] else s.running).length ≤ 1
            rw [if_neg hth]
            exact ih.2
  refine ⟨fun s h => (key s h).2, ?_, ?_⟩
  · intro s t f h
    rw [start_worker, if_pos (by rw [h]; rfl)]
  · intro s f g
    by_cases hth : s.thread.isSome
    · have hin : start_worker s f = s := by rw [start_worker, if_pos hth]
      rw [hin, start_worker, if_pos hth]
    · have hin : start_worker s f
          = { thread := some f, stopevent := some false,
              running := s.running ++ [f] } := by
        rw [start_worker, if_neg hth]
      rw [hin]
      simp [start_worker]

/-- Witness for C8: the initial state satisfies the invariant, and
starting on a state with a live thread handle changes nothing. -/
theorem worker_single_witness :
    workerInit.running.length ≤ 1
    ∧ start_worker (WorkerSt.mk (some 5) (some false) [5]) 9
        = WorkerSt.mk (some 5) (some false) [5] := by
  exact ⟨worker_single.1 workerInit WReach.init,
    worker_single.2.1 (WorkerSt.mk (some 5) (some false) [5]) 5 9 rfl⟩

/-! ### Silent construction of `LaCrosseSensor` -/

/-- C10: constructing a `LaCrosseSensor` from a non-matching line (or no
line) raises nothing and sets none of the reading attributes; the parse
failure is only observable later, as an `AttributeError` on any access to
a reading field — not as an absent/optional value. -/
theorem sensor_silent :
    ∀ line : List Char, LaCrosseSensor_parse line = none →
      sensor_init_line (some line) = none
      ∧ sensor_init_line none = none
      ∧ ∀ (α : Type) (f : Reading → α),
          sensor_getattr (sensor_init_line (some line)) f = Except.error () := by
  intro line h
  have h1 : sensor_init_line (some line) = none := by
    unfold sensor_init_line
    dsimp only
    by_cases hl : line = []
    · rw [if_pos hl]
    · rw [if_neg hl]
      exact h
  refine ⟨h1, rfl, fun α f => ?_⟩
  rw [h1]
  rfl

/-- Witness for C10: the line `v 1 2` does not match the reading regex;
the constructed sensor has no fields and the `sensorid` access errors. -/
theorem sensor_silent_witness :
    sensor_init_line (some "v 1 2".data) = none
    ∧ sensor_getattr (sensor_init_line (some "v 1 2".data)) Reading.sensorid
        = Except.error () := by
  have h := sensor_silent "v 1 2".data rfl
  exact ⟨h.1, h.2.2 _ Reading.sensorid⟩

end LaCrosse
